import Mathlib

/-
Shallow embedding of the zkc-state Merkle key-value service: src/kvpair.rs,
src/service.rs and src/poseidon.rs, with the MongoDB collection state
modelled as explicit document lists.  The Poseidon permutation itself lives
in external crates (poseidon, halo2), so the two hashers are abstracted as
parameters (HashFns); no theorem below depends on concrete hash values.
The merkle module is declared in lib.rs but absent from the provided
sources; its index helpers are modelled from the spec and marked as such.
-/

namespace ZkcState

/-- Raw byte strings (each entry one byte value); a Rust `[u8; 32]` value is a
length-32 list. -/
abbrev Bytes : Type := List Nat

/-- kvpair.rs `Hash(pub [u8; 32])`. -/
abbrev Hash : Type := Bytes

/-- kvpair.rs `LeafData(pub [u8; 32])`. -/
abbrev LeafData : Type := Bytes

/-- kvpair.rs line 29: `pub const MERKLE_TREE_HEIGHT: usize = 20;`. -/
def MERKLE_TREE_HEIGHT : Nat := 20

/-- The `[0u8; 32]` zero byte string. -/
def zero32 : Bytes := List.replicate 32 0

/-- The BN254 scalar-field modulus (halo2 `bn256::Fr`). -/
def bn254p : Nat := 21888242871839275222246405745257275088548364400416034343698204186575808495617

/-- Little-endian byte interpretation, the integer read by `Fr::from_repr`. -/
def le_bytes_to_nat (l : Bytes) : Nat := l.foldr (fun b acc => b + 256 * acc) 0

/-- Rust `u64::ilog2` (floor of log2), fuelled structurally; fuel 64 covers u64
inputs and anything larger still exceeds the tree height. -/
def ilog2_aux : Nat → Nat → Nat
  | 0, _ => 0
  | fuel + 1, n => if 2 ≤ n then ilog2_aux fuel (n / 2) + 1 else 0

def ilog2 (n : Nat) : Nat := ilog2_aux 64 n

/-- errors.rs `Error` kinds (messages elided), extended with the outcomes the
embedding must distinguish: `panicErr` models a Rust panic (assert! or index
out of bounds), `mongoErr` a driver-level error, `unauthenticated` the tonic
status used by contract-id resolution. -/
inductive Err : Type
  | invalidArgument
  | precondition
  | inconsistentData
  | merkleErr
  | panicErr
  | unauthenticated
  | mongoErr
  deriving DecidableEq

def isOkE {α : Type} : Except Err α → Bool
  | .ok _ => true
  | .error _ => false

/-- kvpair.rs `MerkleRecord` (index, hash, left, right, data). -/
structure MerkleRecord where
  index : Nat
  hash : Hash
  left : Hash
  right : Hash
  data : LeafData
  deriving DecidableEq

/-- Data-hash record: maps a leaf-data digest to its preimage.  The struct
definition is not among the provided sources (it is imported from kvpair by
service.rs); fields follow spec section 3 "Data-hash record". -/
structure DataHashRecord where
  hash : Hash
  data : Bytes
  deriving DecidableEq

/-- merkle.rs `MerkleProof`: source, root, assist vector and leaf index. -/
structure MerkleProof where
  source : Hash
  root : Hash
  assist : List Hash
  index : Nat
  deriving DecidableEq

/-- One document of the merkle collection; `isSentinel` is true exactly for
the document whose `_id` is the all-zero current-root ObjectId. -/
structure MerkleDoc where
  isSentinel : Bool
  record : MerkleRecord
  deriving DecidableEq

/-- The per-contract MongoDB state: the merkle collection and the data-hash
collection, as documents in natural (insertion) order. -/
structure Collection where
  merkleDocs : List MerkleDoc
  dataDocs : List DataHashRecord
  deriving DecidableEq

def emptyCollection : Collection := ⟨[], []⟩

/-- The two Poseidon-based hashers used by kvpair.rs (`Hash::hash_children`,
`Hash::hash_data`) and the sponge behind poseidon.rs `hash_field_elements`.
Their parameters and round constants live in external crates, so they are
abstracted as arbitrary total functions. -/
structure HashFns where
  hash_children : Hash → Hash → Hash
  hash_data : LeafData → Hash
  sponge : List Nat → Hash

/-- kvpair.rs `MerkleRecord::new`: all fields zeroed except the index. -/
def MerkleRecord.new (index : Nat) : MerkleRecord := ⟨index, zero32, zero32, zero32, zero32⟩

/-- kvpair.rs `MerkleRecord::new_leaf(index, data)`: stores the argument in
`data` and recomputes `hash = Hash::hash_data(data)`. -/
def new_leaf (fns : HashFns) (index : Nat) (data : LeafData) : MerkleRecord :=
  ⟨index, fns.hash_data data, zero32, zero32, data⟩

/-- kvpair.rs `MerkleRecord::new_non_leaf(index, left, right)`. -/
def new_non_leaf (fns : HashFns) (index : Nat) (left right : Hash) : MerkleRecord :=
  ⟨index, fns.hash_children left right, left, right, zero32⟩

/-- kvpair.rs `DEFAULT_HASH_VEC`: entry k is the default hash k levels above
a leaf; entry 0 is the hash of the all-zero leaf data. -/
def default_hash_vec (fns : HashFns) : Nat → Hash
  | 0 => fns.hash_data zero32
  | k + 1 => fns.hash_children (default_hash_vec fns k) (default_hash_vec fns k)

/-- kvpair.rs `Hash::get_default_hash(depth)`: `DEFAULT_HASH_VEC[H - depth]`
for `depth <= H`, otherwise an InvalidDepth merkle error. -/
def get_default_hash (fns : HashFns) (depth : Nat) : Except Err Hash :=
  if depth ≤ MERKLE_TREE_HEIGHT then .ok (default_hash_vec fns (MERKLE_TREE_HEIGHT - depth))
  else .error .merkleErr

/-- kvpair.rs `MerkleRecord::get_default_record(index)`: the synthetic record
at depth `ilog2(index + 1)` with default hash and default children (zero
bytes at leaf level).  The source computes `(index + 1).ilog2()` on a
fixed-width integer, so at the maximal index the addition overflows: a
panic in debug builds, and in release a wrap to 0 on which `ilog2` panics —
modelled by the panic marker when `index + 1` exceeds the u64 range. -/
def get_default_record (fns : HashFns) (index : Nat) : Except Err MerkleRecord :=
  if 2 ^ 64 ≤ index + 1 then .error .panicErr else
  match get_default_hash fns (ilog2 (index + 1)) with
  | .error e => .error e
  | .ok dft =>
    match (if ilog2 (index + 1) = MERKLE_TREE_HEIGHT then Except.ok zero32
           else get_default_hash fns (ilog2 (index + 1) + 1)) with
    | .error e => .error e
    | .ok child => .ok ⟨index, dft, child, child, zero32⟩

/-- kvpair.rs `TryFrom<&[u8]> for Hash`: only the length is checked. -/
def hash_try_from (a : Bytes) : Except Err Hash :=
  if a.length = 32 then .ok a else .error .invalidArgument

/-- Viability of `Fr::from_repr`: a 32-byte chunk is a field element iff its
little-endian value is below the modulus. -/
def fr_from_repr (b : Bytes) : Option Nat :=
  if le_bytes_to_nat b < bn254p then some (le_bytes_to_nat b) else none

/-- Rust `slice::chunks(32)`, fuelled by the list length. -/
def chunks_aux : Nat → Bytes → List Bytes
  | 0, _ => []
  | _ + 1, [] => []
  | fuel + 1, b :: rest => (b :: rest).take 32 :: chunks_aux fuel ((b :: rest).drop 32)

def chunks32 (l : Bytes) : List Bytes := chunks_aux l.length l

/-- The chunk-wise `Fr::from_repr` collection inside poseidon.rs `hash`:
first invalid chunk aborts with InvalidArgument. -/
def frs_of_chunks : List Bytes → Except Err (List Nat)
  | [] => .ok []
  | ch :: rest =>
    match fr_from_repr ch with
    | none => .error .invalidArgument
    | some f =>
      match frs_of_chunks rest with
      | .error e => .error e
      | .ok fs => .ok (f :: fs)

/-- poseidon.rs `hash`: the length must be a multiple of 32 and every 32-byte
chunk a valid field element; then the sponge is applied to the elements. -/
def poseidon_hash (fns : HashFns) (data : Bytes) : Except Err Hash :=
  if data.length % 32 = 0 then
    match frs_of_chunks (chunks32 data) with
    | .error e => .error e
    | .ok frs => .ok (fns.sponge frs)
  else .error .invalidArgument

/-- service.rs find_one on the merkle collection with filter {index, hash}:
scans all documents (sentinel included) in natural order. -/
def find_by_index_hash (c : Collection) (index : Nat) (h : Hash) : Option MerkleRecord :=
  (c.merkleDocs.find? fun d => decide (d.record.index = index ∧ d.record.hash = h)).map
    (·.record)

/-- find_one with filter {_id: the all-zero current-root ObjectId}. -/
def find_sentinel (c : Collection) : Option MerkleRecord :=
  (c.merkleDocs.find? fun d => d.isSentinel).map (·.record)

/-- insert_one on the merkle collection: a fresh ObjectId, appended in
natural order. -/
def insert_one_merkle (c : Collection) (r : MerkleRecord) : Collection :=
  { c with merkleDocs := c.merkleDocs ++ [⟨false, r⟩] }

/-- service.rs `insert_merkle_record`.  `Option::map_or` evaluates its
default argument eagerly, so the `insert_one_merkle_record` call inside it
runs whether or not the find succeeded; a pre-existing record is used only
as the return value. -/
def insert_merkle_record (c : Collection) (r : MerkleRecord) : MerkleRecord × Collection :=
  (Option.getD (find_by_index_hash c r.index r.hash) r, insert_one_merkle c r)

/-- The update_one upsert of the sentinel document: the first sentinel is
replaced field-wise with index 0 and the record's hash/left/right (its data
field is not part of the $set, so it is kept); if no sentinel exists a new
sentinel document is created (data modelled as zero bytes). -/
def upd_sentinel (r : MerkleRecord) : List MerkleDoc → List MerkleDoc
  | [] => [⟨true, ⟨0, r.hash, r.left, r.right, zero32⟩⟩]
  | d :: ds =>
    if d.isSentinel then ⟨true, ⟨0, r.hash, r.left, r.right, d.record.data⟩⟩ :: ds
    else d :: upd_sentinel r ds

/-- service.rs `update_root_merkle_record`. -/
def update_root_merkle_record (c : Collection) (r : MerkleRecord) : Collection :=
  { c with merkleDocs := upd_sentinel r c.merkleDocs }

/-- service.rs `get_merkle_record`: exact (index, hash) find first; on a miss
consult the default record, return it on hash match, otherwise absence. -/
def get_merkle_record (fns : HashFns) (c : Collection) (index : Nat) (h : Hash) :
    Except Err (Option MerkleRecord) :=
  match find_by_index_hash c index h with
  | some r => .ok (some r)
  | none =>
    match get_default_record fns index with
    | .error e => .error e
    | .ok d => if d.hash = h then .ok (some d) else .ok none

/-- service.rs `must_get_merkle_record`. -/
def must_get_merkle_record (fns : HashFns) (c : Collection) (index : Nat) (h : Hash) :
    Except Err MerkleRecord :=
  match get_merkle_record fns c index h with
  | .error e => .error e
  | .ok (some r) => .ok r
  | .ok none => .error .precondition

/-- service.rs `get_root_merkle_record`: the sentinel if present, else
`get_default_record(0).ok()`. -/
def get_root_merkle_record (fns : HashFns) (c : Collection) : Option MerkleRecord :=
  match find_sentinel c with
  | some r => some r
  | none => (get_default_record fns 0).toOption

/-- service.rs `must_get_root_merkle_record` (its assert! cannot fire, since
the default record at index 0 always exists at height 20). -/
def must_get_root_merkle_record (fns : HashFns) (c : Collection) : Except Err MerkleRecord :=
  match get_root_merkle_record fns c with
  | some r => .ok r
  | none => .error .panicErr

/-- kvpair.rs `DataHashRecord::default()` (derive(Default): zero hash, empty data). -/
def default_datahash_record : DataHashRecord := ⟨zero32, []⟩

/-- service.rs `get_datahash_record`: the default hash is answered with the
default record without consulting the store. -/
def get_datahash_record (c : Collection) (h : Hash) : Option DataHashRecord :=
  if h = default_datahash_record.hash then some default_datahash_record
  else c.dataDocs.find? fun d => decide (d.hash = h)

/-- service.rs `insert_datahash_record`: same eager `map_or` shape as
`insert_merkle_record`, so insert_one always runs. -/
def insert_datahash_record (c : Collection) (r : DataHashRecord) : DataHashRecord × Collection :=
  (Option.getD (c.dataDocs.find? fun d => decide (d.hash = r.hash)) r,
   { c with dataDocs := c.dataDocs ++ [r] })

/-- Modelled from the spec: merkle.rs `leaf_check` — section 4.B, Leaf iff
`2^H − 1 ≤ index ≤ 2^(H+1) − 2`; non-leaf positions are a merkle error. -/
def leaf_check (index : Nat) : Except Err Unit :=
  if 2 ^ MERKLE_TREE_HEIGHT - 1 ≤ index ∧ index ≤ 2 ^ (MERKLE_TREE_HEIGHT + 1) - 2 then .ok ()
  else .error .merkleErr

/-- Modelled from the spec: merkle.rs `get_path` — section 4.B, the H node
indices from the root's child down to the leaf, obtained by repeatedly
halving `(i − 1) / 2`. -/
def get_path_aux : Nat → Nat → List Nat
  | _, 0 => []
  | i, fuel + 1 => get_path_aux ((i - 1) / 2) fuel ++ [i]

def get_path (index : Nat) : List Nat := get_path_aux index MERKLE_TREE_HEIGHT

/-- Modelled from the spec: merkle.rs `get_offset` — section 4.B,
`leaf_offset(i) = i − (2^H − 1)`. -/
def get_offset (index : Nat) : Nat := index - (2 ^ MERKLE_TREE_HEIGHT - 1)

/-- Modelled from the spec: merkle.rs `get_sibling_index` — section 4.B,
`i − 1` if `i` even else `i + 1`. -/
def get_sibling_index (index : Nat) : Nat :=
  if index % 2 = 0 then index - 1 else index + 1

/-- Modelled from the spec: merkle.rs `get_node_type` — section 4.B; an index
is representable on the wire iff it is a leaf or internal position. -/
def node_kind_valid (index : Nat) : Bool :=
  decide (index ≤ 2 ^ (MERKLE_TREE_HEIGHT + 1) - 2)

/-- The top-down loop of service.rs `get_leaf_and_proof`: at each path node
decide left/right from the child index (the assert! on neither is a panic),
fetch the sibling by hash and then the chosen child, and push the sibling's
hash onto the assist vector. -/
def walk (fns : HashFns) (c : Collection) :
    List Nat → Nat → MerkleRecord → List Hash → Except Err (MerkleRecord × List Hash)
  | [], _, node, assist => .ok (node, assist)
  | child :: rest, acc, node, assist =>
    if (acc + 1) * 2 = child + 1 ∨ (acc + 1) * 2 = child then
      match must_get_merkle_record fns c (get_sibling_index child)
          (if (acc + 1) * 2 = child + 1 then node.right else node.left) with
      | .error e => .error e
      | .ok sibling =>
        match must_get_merkle_record fns c child
            (if (acc + 1) * 2 = child + 1 then node.left else node.right) with
        | .error e => .error e
        | .ok node2 => walk fns c rest child node2 (assist ++ [sibling.hash])
    else .error .panicErr

/-- service.rs `get_leaf_and_proof`: leaf_check, read the root record and its
hash, walk the path from the top, and assemble the proof. -/
def get_leaf_and_proof (fns : HashFns) (c : Collection) (index : Nat) :
    Except Err (MerkleRecord × MerkleProof) :=
  match leaf_check index with
  | .error e => .error e
  | .ok _ =>
    match must_get_root_merkle_record fns c with
    | .error e => .error e
    | .ok root =>
      match walk fns c (get_path index) 0 root [] with
      | .error e => .error e
      | .ok (node, assist) => .ok (node, ⟨node.hash, root.hash, assist, index⟩)

/-- State of the bottom-up rewrite loop: the running hash, the offset p, and
the collection. -/
structure RehashSt where
  hash : Hash
  p : Nat
  c : Collection
  deriving DecidableEq

/-- One iteration of the bottom-up loop of `set_leaf_and_get_proof` at the
given depth: pair the running hash with assist[depth] (out-of-range indexing
models the Rust panic) ordered by the parity of p (odd: sibling on the
left), hash the pair, halve p, insert the parent at `p + 2^depth − 1` (the
assert_eq! on the rebuilt record's hash is by construction true), and update
the root pointer exactly when that parent index is 0. -/
def rehash_body (fns : HashFns) (assist : List Hash) (depth : Nat) (st : RehashSt) :
    Except Err RehashSt :=
  match assist.get? depth with
  | none => .error .panicErr
  | some sib =>
    if (new_non_leaf fns ((st.p / 2) + 2 ^ depth - 1)
          (if st.p % 2 = 1 then sib else st.hash)
          (if st.p % 2 = 1 then st.hash else sib)).hash
        = fns.hash_children (if st.p % 2 = 1 then sib else st.hash)
            (if st.p % 2 = 1 then st.hash else sib) then
      .ok ⟨fns.hash_children (if st.p % 2 = 1 then sib else st.hash)
              (if st.p % 2 = 1 then st.hash else sib),
           st.p / 2,
           (fun c2 => if (st.p / 2) + 2 ^ depth - 1 = 0 then
               update_root_merkle_record c2
                 (new_non_leaf fns ((st.p / 2) + 2 ^ depth - 1)
                   (if st.p % 2 = 1 then sib else st.hash)
                   (if st.p % 2 = 1 then st.hash else sib))
             else c2)
             (insert_merkle_record st.c
               (new_non_leaf fns ((st.p / 2) + 2 ^ depth - 1)
                 (if st.p % 2 = 1 then sib else st.hash)
                 (if st.p % 2 = 1 then st.hash else sib))).2⟩
    else .error .panicErr

/-- The `for i in 0..MERKLE_TREE_HEIGHT` loop of `set_leaf_and_get_proof`,
whose body runs at `depth = MERKLE_TREE_HEIGHT − i − 1`; the fuel counts the
remaining iterations (`fuel = MERKLE_TREE_HEIGHT − i`). -/
def rehash_loop (fns : HashFns) (assist : List Hash) :
    Nat → Nat → RehashSt → Except Err RehashSt
  | 0, _, st => .ok st
  | fuel + 1, i, st =>
    match rehash_body fns assist (MERKLE_TREE_HEIGHT - i - 1) st with
    | .error e => .error e
    | .ok st2 => rehash_loop fns assist fuel (i + 1) st2

/-- Transcription of the claimed update loop: for each depth from H−1 down
to 0 run `rehash_body` (pair with assist[depth] by the parity of p, hash
with hash_children, halve p, insert the parent at `p + 2^depth − 1`, set the
root pointer exactly when that index is 0). -/
def spec_rehash (fns : HashFns) (assist : List Hash) : Nat → RehashSt → Except Err RehashSt
  | 0, st => .ok st
  | d + 1, st =>
    match rehash_body fns assist d st with
    | .error e => .error e
    | .ok st2 => spec_rehash fns assist d st2

/-- service.rs `set_leaf_and_get_proof`: walk for the current proof,
overwrite its source with the new leaf hash, insert the leaf, then run the
bottom-up loop starting from the leaf offset. -/
def set_leaf_and_get_proof (fns : HashFns) (c : Collection) (leaf : MerkleRecord) :
    Except Err (MerkleProof × Collection) :=
  match get_leaf_and_proof fns c leaf.index with
  | .error e => .error e
  | .ok rp =>
    match rehash_loop fns rp.2.assist MERKLE_TREE_HEIGHT 0
        ⟨leaf.hash, get_offset leaf.index, (insert_merkle_record c leaf).2⟩ with
    | .error e => .error e
    | .ok st => .ok ({ rp.2 with source := leaf.hash }, st.c)

/-- The tail of service.rs `set_leaf` after payload resolution: build the
DataHashRecord, insert it when the flag is set, build the leaf record by
passing the resolved hash as `new_leaf`'s data argument (exactly as the
source does at its `MerkleRecord::new_leaf(index, hash)` call), run
`set_leaf_and_get_proof`, and convert to the response Node (the pairwise
`TryFrom` for Node is not among the provided sources; modelled from the spec
wire schema as requiring a representable node kind). -/
def set_leaf_tail (fns : HashFns) (c : Collection) (index : Nat) (data : Bytes) (h : Hash)
    (shouldInsert : Bool) :
    Except Err (MerkleRecord × DataHashRecord × MerkleProof × Collection) :=
  match set_leaf_and_get_proof fns
      (if shouldInsert then (insert_datahash_record c ⟨h, data⟩).2 else c)
      (new_leaf fns index h) with
  | .error e => .error e
  | .ok pc =>
    if node_kind_valid index then .ok (new_leaf fns index h, ⟨h, data⟩, pc.1, pc.2)
    else .error .inconsistentData

/-- service.rs `set_leaf` (the RPC body after contract-id resolution; the
optional proof serialization of the response is elided).  Payload
resolution: {data, hash} uses the supplied hash; {data, −} hashes the data
with poseidon::hash; {−, hash} loads the data-hash record, InvalidArgument
when absent; {−, −} is InvalidArgument. -/
def set_leaf (fns : HashFns) (c : Collection) (index : Nat)
    (dataOpt hashOpt : Option Bytes) :
    Except Err (MerkleRecord × DataHashRecord × MerkleProof × Collection) :=
  match dataOpt, hashOpt with
  | some data, some hb =>
    (match hash_try_from hb with
     | .error e => .error e
     | .ok h => set_leaf_tail fns c index data h true)
  | some data, none =>
    (match poseidon_hash fns data with
     | .error e => .error e
     | .ok h => set_leaf_tail fns c index data h true)
  | none, some hb =>
    (match hash_try_from hb with
     | .error _ => .error .invalidArgument
     | .ok h =>
       match get_datahash_record c h with
       | none => .error .invalidArgument
       | some r => set_leaf_tail fns c index r.data h false)
  | none, none => .error .invalidArgument

/-- service.rs `get_contract_id_from_request_context`: the x-auth-contract-id
header (None = absent), its ASCII to_str outcome (inner None = failure), the
base64 decode (external crate, abstracted as a parameter), and the 32-byte
check; every failure is an unauthenticated status. -/
def get_contract_id_from_request_context (b64 : String → Option Bytes)
    (meta : Option (Option String)) : Except Err Bytes :=
  match meta with
  | none => .error .unauthenticated
  | some none => .error .unauthenticated
  | some (some s) =>
    match b64 s with
    | none => .error .unauthenticated
    | some bs => if bs.length = 32 then .ok bs else .error .unauthenticated

/-- service.rs `get_contract_id_from_request_parameters`. -/
def get_contract_id_from_request_parameters (cid : Bytes) : Except Err Bytes :=
  if cid.length = 32 then .ok cid else .error .invalidArgument

/-- kvpair.rs `ContractId::default()`: 32 zero bytes. -/
def default_contract_id : Bytes := List.replicate 32 0

/-- service.rs `get_contract_id`: test override first, then the explicit
request field, then the request context with `unwrap_or_default()`. -/
def get_contract_id (testCfg : Option Bytes) (b64 : String → Option Bytes)
    (meta : Option (Option String)) (reqId : Option Bytes) : Except Err Bytes :=
  match testCfg with
  | some id => .ok id
  | none =>
    match reqId with
    | some cid => get_contract_id_from_request_parameters cid
    | none =>
      match get_contract_id_from_request_context b64 meta with
      | .ok id => .ok id
      | .error _ => .ok default_contract_id

/-- Outcome of one underlying `session.commit_transaction()` call: success,
an error carrying the TRANSIENT or UNKNOWN-COMMIT-RESULT label, or a plain
error. -/
inductive CommitResult : Type
  | success
  | errLabeled
  | errPlain
  deriving DecidableEq

/-- The retry loop of service.rs `MongoCollection::commit`, observed for
`fuel` iterations starting at call number `i`; `none` means the loop is
still running.  A labeled error hits `continue`; a plain error returns
through `result?`; on Ok the `result?` evaluates to unit and the loop body
ends with no break, so the loop runs the commit again. -/
def commit_loop (outcomes : Nat → CommitResult) : Nat → Nat → Option (Except Err Unit)
  | 0, _ => none
  | fuel + 1, i =>
    match outcomes i with
    | .errLabeled => commit_loop outcomes fuel (i + 1)
    | .success => commit_loop outcomes fuel (i + 1)
    | .errPlain => some (.error .mongoErr)

/-- A concrete instantiation of the abstract hashers, used only to evaluate
closed statements whose truth does not depend on hash values. -/
def anyFns : HashFns := ⟨fun _ _ => zero32, fun _ => zero32, fun _ => zero32⟩

/-- All-0xFF 32-byte string (its LE value exceeds the BN254 modulus). -/
def ff32 : Bytes := List.replicate 32 255

/-- A 32-byte string distinct from the zero default hash. -/
def one32 : Bytes := 1 :: List.replicate 31 0

/-- A 32-byte data payload. -/
def d42 : Bytes := List.replicate 32 42

/-- The merkle documents produced by writing the all-zero leaf record at the
first leaf index into an empty collection under `anyFns`: the leaf document,
the twenty parent documents at `2^(19−k) − 1`, and the upserted sentinel. -/
def wit_docs : List MerkleDoc :=
  ⟨false, MerkleRecord.new (2 ^ 20 - 1)⟩ ::
    (((List.range MERKLE_TREE_HEIGHT).map fun k =>
        ⟨false, MerkleRecord.new (2 ^ (19 - k) - 1)⟩) ++
      [⟨true, MerkleRecord.new 0⟩])

/-- The proof returned for that write under `anyFns`. -/
def wit_proof : MerkleProof :=
  ⟨zero32, zero32, List.replicate MERKLE_TREE_HEIGHT zero32, 2 ^ 20 - 1⟩

lemma hash_try_from_ok {b v : Bytes} (h : hash_try_from b = .ok v) :
    v = b ∧ b.length = 32 := by
  unfold hash_try_from at h
  by_cases hl : b.length = 32
  · rw [if_pos hl] at h
    simp only [Except.ok.injEq] at h
    exact ⟨h.symm, hl⟩
  · rw [if_neg hl] at h
    exact absurd h (by simp)

lemma get_path_aux_length : ∀ (fuel i : Nat), (get_path_aux i fuel).length = fuel := by
  intro fuel
  induction fuel with
  | zero => intro i; rfl
  | succ n ih =>
    intro i
    unfold get_path_aux
    simp [ih]

lemma walk_ok_length (fns : HashFns) (c : Collection) :
    ∀ (paths : List Nat) (acc : Nat) (node : MerkleRecord) (assist : List Hash)
      (r : MerkleRecord) (as2 : List Hash),
      walk fns c paths acc node assist = .ok (r, as2) →
      as2.length = assist.length + paths.length := by
  intro paths
  induction paths with
  | nil =>
    intro acc node assist r as2 h
    unfold walk at h
    simp only [Except.ok.injEq, Prod.mk.injEq] at h
    rw [← h.2]
    simp
  | cons child rest ih =>
    intro acc node assist r as2 h
    unfold walk at h
    by_cases hc : (acc + 1) * 2 = child + 1 ∨ (acc + 1) * 2 = child
    · rw [if_pos hc] at h
      cases h1 : must_get_merkle_record fns c (get_sibling_index child)
          (if (acc + 1) * 2 = child + 1 then node.right else node.left) with
      | error e => rw [h1] at h; exact absurd h (by simp)
      | ok sib =>
        rw [h1] at h
        cases h2 : must_get_merkle_record fns c child
            (if (acc + 1) * 2 = child + 1 then node.left else node.right) with
        | error e => rw [h2] at h; exact absurd h (by simp)
        | ok node2 =>
          rw [h2] at h
          dsimp only at h
          have hlen := ih child node2 (assist ++ [sib.hash]) r as2 h
          simp at hlen ⊢
          omega
    · rw [if_neg hc] at h
      exact absurd h (by simp)

lemma get_leaf_and_proof_shape (fns : HashFns) (c : Collection) (index : Nat)
    (r : MerkleRecord) (pf : MerkleProof)
    (h : get_leaf_and_proof fns c index = .ok (r, pf)) :
    pf.index = index ∧ pf.source = r.hash ∧ pf.assist.length = MERKLE_TREE_HEIGHT ∧
      ∀ r₀, must_get_root_merkle_record fns c = .ok r₀ → pf.root = r₀.hash := by
  unfold get_leaf_and_proof at h
  cases hlc : leaf_check index with
  | error e => rw [hlc] at h; exact absurd h (by simp)
  | ok u =>
    rw [hlc] at h
    dsimp only at h
    cases hroot : must_get_root_merkle_record fns c with
    | error e => rw [hroot] at h; exact absurd h (by simp)
    | ok root =>
      rw [hroot] at h
      dsimp only at h
      cases hwalk : walk fns c (get_path index) 0 root [] with
      | error e => rw [hwalk] at h; exact absurd h (by simp)
      | ok na =>
        obtain ⟨node, assist⟩ := na
        rw [hwalk] at h
        dsimp only at h
        simp only [Except.ok.injEq, Prod.mk.injEq] at h
        obtain ⟨hn, hp⟩ := h
        subst hn
        subst hp
        refine ⟨rfl, rfl, ?_, ?_⟩
        · have hlen := walk_ok_length fns c (get_path index) 0 root [] node assist hwalk
          simpa [get_path, get_path_aux_length] using hlen
        · intro r₀ h₀
          simp only [Except.ok.injEq] at h₀
          subst h₀
          rfl

lemma rehash_loop_eq_spec (fns : HashFns) (assist : List Hash) :
    ∀ (fuel i : Nat) (st : RehashSt), i + fuel = MERKLE_TREE_HEIGHT →
      rehash_loop fns assist fuel i st = spec_rehash fns assist fuel st := by
  intro fuel
  induction fuel with
  | zero => intro i st _; rfl
  | succ n ih =>
    intro i st hi
    have h20 : MERKLE_TREE_HEIGHT = 20 := rfl
    have hd : MERKLE_TREE_HEIGHT - i - 1 = n := by omega
    unfold rehash_loop spec_rehash
    rw [hd]
    cases hb : rehash_body fns assist n st with
    | error e => rfl
    | ok st2 => exact ih (i + 1) st2 (by omega)

lemma ilog2_aux_le : ∀ (fuel n k : Nat), n < 2 ^ (k + 1) → k ≤ fuel →
    ilog2_aux fuel n ≤ k := by
  intro fuel
  induction fuel with
  | zero => intro n k _ _; simp [ilog2_aux]
  | succ m ih =>
    intro n k hn hk
    unfold ilog2_aux
    split
    · rename_i h2
      have hk1 : 1 ≤ k := by
        by_contra hc
        have hk0 : k = 0 := by omega
        subst hk0
        simp at hn
        omega
      have hdiv : n / 2 < 2 ^ k := by
        have hmul : n < 2 ^ k * 2 := by
          rw [← pow_succ]
          exact hn
        exact (Nat.div_lt_iff_lt_mul (by norm_num)).mpr hmul
      have hrec := ih (n / 2) (k - 1)
        (by
          have hkk : k - 1 + 1 = k := by omega
          rw [hkk]
          exact hdiv)
        (by omega)
      omega
    · omega

lemma ilog2_aux_ge : ∀ (fuel n k : Nat), 2 ^ k ≤ n → k ≤ fuel →
    k ≤ ilog2_aux fuel n := by
  intro fuel
  induction fuel with
  | zero => intro n k _ hk; simp [ilog2_aux]; omega
  | succ m ih =>
    intro n k hn hk
    unfold ilog2_aux
    by_cases h2 : 2 ≤ n
    · rw [if_pos h2]
      rcases Nat.eq_zero_or_pos k with hk0 | hkpos
      · omega
      · have hpow : 2 ^ (k - 1) ≤ n / 2 := by
          have h1 : 2 ^ (k - 1) * 2 ≤ n := by
            have h2k : 2 ^ (k - 1) * 2 = 2 ^ k := by
              rw [← pow_succ]
              congr 1
              omega
            rw [h2k]
            exact hn
          exact (Nat.le_div_iff_mul_le (by norm_num)).mpr h1
        have hrec := ih (n / 2) (k - 1) hpow (by omega)
        omega
    · rw [if_neg h2]
      have hk0 : k = 0 := by
        by_contra hc
        have h1 : 2 ≤ 2 ^ k := by
          calc 2 = 2 ^ 1 := by norm_num
          _ ≤ 2 ^ k := Nat.pow_le_pow_right (by norm_num) (by omega)
        omega
      omega

lemma get_default_record_ok (fns : HashFns) (index : Nat) (h : index ≤ 2 ^ 21 - 2) :
    isOkE (get_default_record fns index) = true := by
  have h20 : MERKLE_TREE_HEIGHT = 20 := rfl
  have h64 : (2 : Nat) ^ 64 = 18446744073709551616 := by norm_num
  have h21 : (2 : Nat) ^ 21 = 2097152 := by norm_num
  have hlog : ilog2 (index + 1) ≤ 20 := by
    apply ilog2_aux_le 64 (index + 1) 20
    · norm_num at h ⊢
      omega
    · norm_num
  unfold get_default_record get_default_hash
  rw [if_neg (by omega)]
  rw [if_pos (by omega)]
  by_cases hht : ilog2 (index + 1) = MERKLE_TREE_HEIGHT
  · rw [if_pos hht]
    rfl
  · rw [if_neg hht]
    rw [if_pos (by omega)]
    rfl

lemma get_default_record_err (fns : HashFns) (index : Nat) (h : 2 ^ 21 - 2 < index)
    (h2 : index ≤ 2 ^ 64 - 2) :
    get_default_record fns index = .error .merkleErr := by
  have h20 : MERKLE_TREE_HEIGHT = 20 := rfl
  have h64 : (2 : Nat) ^ 64 = 18446744073709551616 := by norm_num
  have h64b : (2 : Nat) ^ 64 - 2 = 18446744073709551614 := by norm_num
  have hlog : 21 ≤ ilog2 (index + 1) := by
    apply ilog2_aux_ge 64 (index + 1) 21
    · norm_num at h ⊢
      omega
    · norm_num
  unfold get_default_record get_default_hash
  rw [if_neg (by omega)]
  rw [if_neg (by omega)]

lemma get_default_record_overflow (fns : HashFns) :
    get_default_record fns (2 ^ 64 - 1) = .error .panicErr := by
  unfold get_default_record
  rw [if_pos (by norm_num)]

/-- C1 counterexample: the height constant is 20, not 32, and the smallest
leaf index claimed by the spec, `2^32 − 1`, is rejected by the leaf check. -/
theorem merkle_tree_height_not_32 :
    ¬ MERKLE_TREE_HEIGHT = 32 ∧ isOkE (leaf_check (2 ^ 32 - 1)) = false :=
  ⟨by decide, by decide⟩

/-- C1 (amended): the tree constant equals 20, leaf indices range over
`[2^20 − 1, 2^21 − 2]`, and every proof assembled by get_leaf_and_proof has
an assist vector of length 20. -/
theorem merkle_tree_height_spec :
    MERKLE_TREE_HEIGHT = 20 ∧
    (∀ index : Nat, isOkE (leaf_check index) = true ↔
        2 ^ 20 - 1 ≤ index ∧ index ≤ 2 ^ 21 - 2) ∧
    (∀ (fns : HashFns) (c : Collection) (index : Nat) (r : MerkleRecord) (pf : MerkleProof),
        get_leaf_and_proof fns c index = .ok (r, pf) →
        pf.assist.length = MERKLE_TREE_HEIGHT) := by
  refine ⟨rfl, ?_, ?_⟩
  · intro index
    unfold leaf_check
    by_cases hcond : 2 ^ MERKLE_TREE_HEIGHT - 1 ≤ index ∧ index ≤ 2 ^ (MERKLE_TREE_HEIGHT + 1) - 2
    · rw [if_pos hcond]
      exact iff_of_true rfl hcond
    · rw [if_neg hcond]
      exact iff_of_false (by simp [isOkE]) hcond
  · intro fns c index r pf h
    exact (get_leaf_and_proof_shape fns c index r pf h).2.2.1

/-- C1 witness: the first leaf index `2^20 − 1` passes the leaf check, and a
concrete walk on the empty store yields an assist vector of length 20. -/
theorem merkle_tree_height_spec_witness :
    isOkE (leaf_check (2 ^ 20 - 1)) = true ∧ wit_proof.assist.length = MERKLE_TREE_HEIGHT := by
  have hgl : get_leaf_and_proof anyFns emptyCollection (2 ^ 20 - 1)
      = .ok (MerkleRecord.new (2 ^ 20 - 1), wit_proof) := rfl
  constructor
  · exact (merkle_tree_height_spec.2.1 (2 ^ 20 - 1)).2 (by norm_num)
  · exact merkle_tree_height_spec.2.2 anyFns emptyCollection (2 ^ 20 - 1)
      (MerkleRecord.new (2 ^ 20 - 1)) wit_proof hgl

/-- C2: when SetLeaf is given both data and hash, the code passes the
resolved hash as `new_leaf`'s data argument, so the inserted leaf record's
Merkle hash is `hash_data(hash-bytes)` — a re-derivation — and its data
field holds the hash bytes; the data-hash record does store (hash → data). -/
theorem set_leaf_rederives_hash :
    ∀ (fns : HashFns) (c : Collection) (index : Nat) (data hb : Bytes)
      (mrec : MerkleRecord) (drec : DataHashRecord) (pf : MerkleProof) (c' : Collection),
      set_leaf fns c index (some data) (some hb) = .ok (mrec, drec, pf, c') →
      mrec = new_leaf fns index hb ∧ mrec.hash = fns.hash_data hb ∧
        mrec.data = hb ∧ drec = ⟨hb, data⟩ := by
  intro fns c index data hb mrec drec pf c' h
  unfold set_leaf at h
  dsimp only at h
  cases hht : hash_try_from hb with
  | error e => rw [hht] at h; exact absurd h (by simp)
  | ok v =>
    obtain ⟨hv, _⟩ := hash_try_from_ok hht
    subst hv
    rw [hht] at h
    dsimp only at h
    unfold set_leaf_tail at h
    cases hslp : set_leaf_and_get_proof fns
        (insert_datahash_record c ⟨v, data⟩).2 (new_leaf fns index v) with
    | error e =>
      rw [if_pos rfl] at h
      rw [hslp] at h
      exact absurd h (by simp)
    | ok pc =>
      rw [if_pos rfl] at h
      rw [hslp] at h
      dsimp only at h
      by_cases hnk : node_kind_valid index = true
      · rw [if_pos hnk] at h
        simp only [Except.ok.injEq, Prod.mk.injEq] at h
        obtain ⟨h1, h2, _, _⟩ := h
        subst h1
        subst h2
        exact ⟨rfl, rfl, rfl, rfl⟩
      · rw [if_neg hnk] at h
        exact absurd h (by simp)

/-- C2 witness: a concrete SetLeaf with both data and hash on the empty
store; the inserted leaf record is the one built by `new_leaf` from the
hash, with the re-derived Merkle hash and the hash bytes as its data. -/
theorem set_leaf_rederives_hash_witness :
    MerkleRecord.new (2 ^ 20 - 1) = new_leaf anyFns (2 ^ 20 - 1) zero32 ∧
    (MerkleRecord.new (2 ^ 20 - 1)).hash = anyFns.hash_data zero32 ∧
    (MerkleRecord.new (2 ^ 20 - 1)).data = zero32 ∧
    (⟨zero32, d42⟩ : DataHashRecord) = ⟨zero32, d42⟩ := by
  have h : set_leaf anyFns emptyCollection (2 ^ 20 - 1) (some d42) (some zero32)
      = .ok (MerkleRecord.new (2 ^ 20 - 1), ⟨zero32, d42⟩, wit_proof,
          ⟨wit_docs, [⟨zero32, d42⟩]⟩) := rfl
  exact set_leaf_rederives_hash anyFns emptyCollection (2 ^ 20 - 1) d42 zero32 _ _ _ _ h

/-- C3: every successful set_leaf_and_get_proof returns the proof whose
source is the new leaf's hash, whose root is the root hash read before the
write, whose index and assist come from the pre-write walk, and the final
store is exactly the claimed depth-descending re-hash loop (parity pairing,
hash_children, halved offset, parent at `p + 2^depth − 1`, root pointer set
exactly at index 0) applied after inserting the leaf. -/
theorem set_leaf_and_get_proof_spec (fns : HashFns) (c : Collection)
    (leaf : MerkleRecord) (proof : MerkleProof) (c' : Collection)
    (rec₀ : MerkleRecord) (proof₀ : MerkleProof) (r₀ : MerkleRecord)
    (h : set_leaf_and_get_proof fns c leaf = .ok (proof, c'))
    (h₀ : get_leaf_and_proof fns c leaf.index = .ok (rec₀, proof₀))
    (h₁ : must_get_root_merkle_record fns c = .ok r₀) :
    proof.source = leaf.hash ∧ proof.root = r₀.hash ∧ proof.index = leaf.index ∧
      proof.assist = proof₀.assist ∧
      (spec_rehash fns proof₀.assist MERKLE_TREE_HEIGHT
          ⟨leaf.hash, get_offset leaf.index, (insert_merkle_record c leaf).2⟩).map RehashSt.c
        = .ok c' := by
  obtain ⟨hidx, hsrc, hlen, hroot⟩ := get_leaf_and_proof_shape fns c leaf.index rec₀ proof₀ h₀
  unfold set_leaf_and_get_proof at h
  rw [h₀] at h
  dsimp only at h
  cases hr : rehash_loop fns proof₀.assist MERKLE_TREE_HEIGHT 0
      ⟨leaf.hash, get_offset leaf.index, (insert_merkle_record c leaf).2⟩ with
  | error e => rw [hr] at h; exact absurd h (by simp)
  | ok st =>
    rw [hr] at h
    dsimp only at h
    simp only [Except.ok.injEq, Prod.mk.injEq] at h
    obtain ⟨hpf, hc⟩ := h
    subst hpf
    refine ⟨rfl, ?_, ?_, rfl, ?_⟩
    · exact hroot r₀ h₁
    · exact hidx
    · rw [← rehash_loop_eq_spec fns proof₀.assist MERKLE_TREE_HEIGHT 0 _ (by rfl)]
      rw [hr]
      simp only [Except.map]
      rw [hc]

/-- C3 witness: a concrete write of the all-zero leaf record at the first
leaf index on the empty store; the claimed loop reproduces the final store
and the proof's source is the new leaf's hash. -/
theorem set_leaf_and_get_proof_spec_witness :
    wit_proof.source = (MerkleRecord.new (2 ^ 20 - 1)).hash ∧
    wit_proof.root = (MerkleRecord.new 0).hash ∧
    (spec_rehash anyFns (List.replicate MERKLE_TREE_HEIGHT zero32) MERKLE_TREE_HEIGHT
        ⟨(MerkleRecord.new (2 ^ 20 - 1)).hash, get_offset (2 ^ 20 - 1),
          (insert_merkle_record emptyCollection (MerkleRecord.new (2 ^ 20 - 1))).2⟩).map
        RehashSt.c
      = .ok ⟨wit_docs, []⟩ := by
  have h : set_leaf_and_get_proof anyFns emptyCollection (MerkleRecord.new (2 ^ 20 - 1))
      = .ok (wit_proof, ⟨wit_docs, []⟩) := rfl
  have h₀ : get_leaf_and_proof anyFns emptyCollection (MerkleRecord.new (2 ^ 20 - 1)).index
      = .ok (MerkleRecord.new (2 ^ 20 - 1), wit_proof) := rfl
  have h₁ : must_get_root_merkle_record anyFns emptyCollection = .ok (MerkleRecord.new 0) := rfl
  obtain ⟨hs, hr, _, _, hspec⟩ := set_leaf_and_get_proof_spec anyFns emptyCollection
    (MerkleRecord.new (2 ^ 20 - 1)) wit_proof ⟨wit_docs, []⟩
    (MerkleRecord.new (2 ^ 20 - 1)) wit_proof (MerkleRecord.new 0) h h₀ h₁
  exact ⟨hs, hr, hspec⟩

/-- C4 counterexample: at the out-of-range index `2^21 − 1` a store miss does
not yield the default record or absence but a merkle InvalidDepth error. -/
theorem get_merkle_record_out_of_range :
    find_by_index_hash emptyCollection (2 ^ 21 - 1) zero32 = none ∧
    get_merkle_record anyFns emptyCollection (2 ^ 21 - 1) zero32 = .error .merkleErr :=
  ⟨rfl, rfl⟩

/-- C4 (amended): lookups match (index, hash) exactly first; on a miss, for
every index at a representable depth (`index ≤ 2^21 − 2`) the synthetic
default record is returned iff its hash equals the requested one, otherwise
absence; for larger in-range u64 indices the default-record computation
fails with a merkle InvalidDepth error, and at the maximal u64 index the
overflowing `(index + 1).ilog2()` panics; the root lookup returns the
sentinel when present and the default index-0 record when absent. -/
theorem get_merkle_record_lookup_spec :
    (∀ (fns : HashFns) (c : Collection) (index : Nat) (h : Hash) (r : MerkleRecord),
        find_by_index_hash c index h = some r →
        get_merkle_record fns c index h = .ok (some r)) ∧
    (∀ (fns : HashFns) (c : Collection) (index : Nat) (h : Hash) (d : MerkleRecord),
        find_by_index_hash c index h = none → get_default_record fns index = .ok d →
        get_merkle_record fns c index h = .ok (if d.hash = h then some d else none)) ∧
    (∀ (fns : HashFns) (index : Nat), index ≤ 2 ^ 21 - 2 →
        isOkE (get_default_record fns index) = true) ∧
    (∀ (fns : HashFns) (index : Nat), 2 ^ 21 - 2 < index → index ≤ 2 ^ 64 - 2 →
        get_default_record fns index = .error .merkleErr) ∧
    (∀ fns : HashFns, get_default_record fns (2 ^ 64 - 1) = .error .panicErr) ∧
    (∀ (fns : HashFns) (c : Collection) (r : MerkleRecord),
        find_sentinel c = some r → get_root_merkle_record fns c = some r) ∧
    (∀ (fns : HashFns) (c : Collection) (d : MerkleRecord),
        find_sentinel c = none → get_default_record fns 0 = .ok d →
        get_root_merkle_record fns c = some d) := by
  refine ⟨?_, ?_, get_default_record_ok, get_default_record_err,
    get_default_record_overflow, ?_, ?_⟩
  · intro fns c index h r hf
    unfold get_merkle_record
    rw [hf]
  · intro fns c index h d hf hd
    unfold get_merkle_record
    rw [hf, hd]
    dsimp only
    by_cases hdh : d.hash = h
    · rw [if_pos hdh, if_pos hdh]
    · rw [if_neg hdh, if_neg hdh]
  · intro fns c r hf
    unfold get_root_merkle_record
    rw [hf]
  · intro fns c d hf hd
    unfold get_root_merkle_record
    rw [hf, hd]
    rfl

/-- C4 witness: a miss at the first leaf index on the empty store returns
the matching default record, a miss just beyond the last leaf index yields
the merkle error, and the empty store's root lookup returns the default
index-0 record. -/
theorem get_merkle_record_lookup_spec_witness :
    get_merkle_record anyFns emptyCollection (2 ^ 20 - 1) zero32
      = .ok (some (MerkleRecord.new (2 ^ 20 - 1))) ∧
    get_default_record anyFns (2 ^ 21 - 1) = .error .merkleErr ∧
    get_root_merkle_record anyFns emptyCollection = some (MerkleRecord.new 0) := by
  have hd : get_default_record anyFns (2 ^ 20 - 1) = .ok (MerkleRecord.new (2 ^ 20 - 1)) := rfl
  have hd0 : get_default_record anyFns 0 = .ok (MerkleRecord.new 0) := rfl
  have hhash : (MerkleRecord.new (2 ^ 20 - 1)).hash = zero32 := rfl
  refine ⟨?_, ?_, ?_⟩
  · have h2 := get_merkle_record_lookup_spec.2.1 anyFns emptyCollection (2 ^ 20 - 1) zero32
      (MerkleRecord.new (2 ^ 20 - 1)) rfl hd
    rw [if_pos hhash] at h2
    exact h2
  · exact get_merkle_record_lookup_spec.2.2.2.1 anyFns (2 ^ 21 - 1)
      (by norm_num) (by norm_num)
  · exact get_merkle_record_lookup_spec.2.2.2.2.2.2 anyFns emptyCollection
      (MerkleRecord.new 0) rfl hd0

/-- C5: the code's `insert_merkle_record` is not an idempotent upsert:
`Option::map_or` evaluates its default argument eagerly, so the insert_one
runs even when a record with the same (index, hash) already exists —
inserting the same record twice leaves two documents in the store, not
one. -/
theorem insert_merkle_record_duplicate_write :
    (find_by_index_hash ((insert_merkle_record emptyCollection (MerkleRecord.new 5)).2)
        5 zero32).isSome = true ∧
    ((insert_merkle_record emptyCollection (MerkleRecord.new 5)).2).merkleDocs.length = 1 ∧
    ((insert_merkle_record ((insert_merkle_record emptyCollection (MerkleRecord.new 5)).2)
        (MerkleRecord.new 5)).2).merkleDocs.length = 2 :=
  ⟨rfl, rfl, rfl⟩

/-- C6 counterexample: the all-0xFF 32-byte string has LE value at least the
BN254 modulus, yet `TryFrom<&[u8]> for Hash` accepts it. -/
theorem hash_try_from_accepts_nonfield :
    bn254p ≤ le_bytes_to_nat ff32 ∧ isOkE (hash_try_from ff32) = true :=
  ⟨by decide, rfl⟩

/-- C6 (amended): Hash deserialization checks only the length — it succeeds
on every 32-byte string (field-range included or not) and fails with
InvalidArgument exactly on other lengths; the field-range check exists only
in poseidon::hash's per-chunk `Fr::from_repr` conversion. -/
theorem hash_try_from_spec :
    ∀ a : Bytes,
      (a.length = 32 → hash_try_from a = .ok a) ∧
      (a.length ≠ 32 → hash_try_from a = .error .invalidArgument) ∧
      (fr_from_repr a = none ↔ bn254p ≤ le_bytes_to_nat a) := by
  intro a
  refine ⟨fun h => by simp [hash_try_from, h], fun h => by simp [hash_try_from, h], ?_⟩
  unfold fr_from_repr
  by_cases hlt : le_bytes_to_nat a < bn254p
  · rw [if_pos hlt]
    simp
    omega
  · rw [if_neg hlt]
    simp
    omega

/-- C6 witness: the all-0xFF string is 32 bytes long and is accepted. -/
theorem hash_try_from_spec_witness : hash_try_from ff32 = .ok ff32 :=
  (hash_try_from_spec ff32).1 rfl

/-- C7 counterexample: SetLeaf with only the all-zero hash succeeds on an
empty store even though no data-hash record for that hash exists, because
`get_datahash_record` answers the default hash with the default record. -/
theorem set_leaf_zero_hash_accepted :
    emptyCollection.dataDocs = [] ∧
    isOkE (set_leaf anyFns emptyCollection (2 ^ 20 - 1) none (some zero32)) = true :=
  ⟨rfl, rfl⟩

/-- C7 (amended): SetLeaf returns InvalidArgument when neither data nor hash
is supplied, and when only a hash is supplied whose data-hash lookup comes
back empty — which for the all-zero default hash never happens, since that
hash is answered with the default record; when a record exists its stored
preimage is the one used. -/
theorem set_leaf_missing_payload_spec :
    (∀ (fns : HashFns) (c : Collection) (index : Nat),
        set_leaf fns c index none none = .error .invalidArgument) ∧
    (∀ (fns : HashFns) (c : Collection) (index : Nat) (hb : Bytes),
        hb.length = 32 → get_datahash_record c hb = none →
        set_leaf fns c index none (some hb) = .error .invalidArgument) ∧
    (∀ (fns : HashFns) (c : Collection) (index : Nat) (hb : Bytes) (r : DataHashRecord)
        (mrec : MerkleRecord) (drec : DataHashRecord) (pf : MerkleProof) (c' : Collection),
        get_datahash_record c hb = some r →
        set_leaf fns c index none (some hb) = .ok (mrec, drec, pf, c') →
        drec = ⟨hb, r.data⟩ ∧ mrec = new_leaf fns index hb) := by
  refine ⟨fun fns c index => rfl, ?_, ?_⟩
  · intro fns c index hb hlen hdn
    unfold set_leaf
    dsimp only
    have hht : hash_try_from hb = .ok hb := by simp [hash_try_from, hlen]
    rw [hht]
    dsimp only
    rw [hdn]
  · intro fns c index hb r mrec drec pf c' hdr h
    unfold set_leaf at h
    dsimp only at h
    cases hht : hash_try_from hb with
    | error e => rw [hht] at h; exact absurd h (by simp)
    | ok v =>
      obtain ⟨hv, _⟩ := hash_try_from_ok hht
      subst hv
      rw [hht] at h
      dsimp only at h
      rw [hdr] at h
      dsimp only at h
      unfold set_leaf_tail at h
      cases hslp : set_leaf_and_get_proof fns c (new_leaf fns index v) with
      | error e =>
        rw [if_neg (by simp)] at h
        rw [hslp] at h
        exact absurd h (by simp)
      | ok pc =>
        rw [if_neg (by simp)] at h
        rw [hslp] at h
        dsimp only at h
        by_cases hnk : node_kind_valid index = true
        · rw [if_pos hnk] at h
          simp only [Except.ok.injEq, Prod.mk.injEq] at h
          obtain ⟨h1, h2, _, _⟩ := h
          exact ⟨h2.symm, h1.symm⟩
        · rw [if_neg hnk] at h
          exact absurd h (by simp)

/-- C7 witness: both-missing and hash-only-with-no-record are rejected with
InvalidArgument, and the hash-only case with a stored record uses the stored
preimage. -/
theorem set_leaf_missing_payload_spec_witness :
    set_leaf anyFns emptyCollection (2 ^ 20 - 1) none none = .error .invalidArgument ∧
    set_leaf anyFns emptyCollection (2 ^ 20 - 1) none (some one32) = .error .invalidArgument ∧
    (⟨one32, d42⟩ : DataHashRecord) = ⟨one32, (⟨one32, d42⟩ : DataHashRecord).data⟩ := by
  have hget : get_datahash_record (⟨[], [⟨one32, d42⟩]⟩ : Collection) one32
      = some ⟨one32, d42⟩ := rfl
  have hok : set_leaf anyFns (⟨[], [⟨one32, d42⟩]⟩ : Collection) (2 ^ 20 - 1) none (some one32)
      = .ok (new_leaf anyFns (2 ^ 20 - 1) one32, ⟨one32, d42⟩,
          wit_proof,
          ⟨⟨false, new_leaf anyFns (2 ^ 20 - 1) one32⟩ ::
              (((List.range MERKLE_TREE_HEIGHT).map fun k =>
                  ⟨false, MerkleRecord.new (2 ^ (19 - k) - 1)⟩) ++
                [⟨true, MerkleRecord.new 0⟩]),
            [⟨one32, d42⟩]⟩) := rfl
  refine ⟨set_leaf_missing_payload_spec.1 anyFns emptyCollection (2 ^ 20 - 1), ?_, ?_⟩
  · exact set_leaf_missing_payload_spec.2.1 anyFns emptyCollection (2 ^ 20 - 1) one32 rfl rfl
  · exact (set_leaf_missing_payload_spec.2.2 anyFns (⟨[], [⟨one32, d42⟩]⟩ : Collection)
      (2 ^ 20 - 1) one32 ⟨one32, d42⟩ _ _ _ _ hget hok).1

lemma frs_of_chunks_ok_iff :
    ∀ l : List Bytes, isOkE (frs_of_chunks l) = true ↔
      ∀ ch ∈ l, le_bytes_to_nat ch < bn254p := by
  intro l
  induction l with
  | nil => simp [frs_of_chunks, isOkE]
  | cons ch rest ih =>
    unfold frs_of_chunks fr_from_repr
    by_cases hch : le_bytes_to_nat ch < bn254p
    · rw [if_pos hch]
      dsimp only
      cases hr : frs_of_chunks rest with
      | error e =>
        rw [hr] at ih
        simp only [isOkE, List.mem_cons] at ih ⊢
        constructor
        · intro hfalse; exact absurd hfalse (by simp)
        · intro hall
          exfalso
          have hcontra := ih.mpr (fun c hc => hall c (Or.inr hc))
          simp at hcontra
      | ok fs =>
        rw [hr] at ih
        simp only [isOkE, List.mem_cons] at ih ⊢
        constructor
        · intro _ c hc
          rcases hc with hceq | hcr
          · subst hceq; exact hch
          · exact ih.mp trivial c hcr
        · intro _; trivial
    · rw [if_neg hch]
      dsimp only
      simp only [isOkE, List.mem_cons]
      constructor
      · intro hfalse; exact absurd hfalse (by simp)
      · intro hall; exact absurd (hall ch (Or.inl rfl)) hch

lemma frs_of_chunks_err :
    ∀ (l : List Bytes) (e : Err), frs_of_chunks l = .error e → e = .invalidArgument := by
  intro l
  induction l with
  | nil => intro e h; exact absurd h (by simp [frs_of_chunks])
  | cons ch rest ih =>
    intro e h
    unfold frs_of_chunks at h
    cases hfr : fr_from_repr ch with
    | none =>
      rw [hfr] at h
      dsimp only at h
      simp only [Except.error.injEq] at h
      exact h.symm
    | some f =>
      rw [hfr] at h
      dsimp only at h
      cases hr : frs_of_chunks rest with
      | error e2 =>
        rw [hr] at h
        dsimp only at h
        simp only [Except.error.injEq] at h
        rw [← h]
        exact ih e2 hr
      | ok fs => rw [hr] at h; exact absurd h (by simp)

/-- C8 counterexample: 64-byte leaf data with no hash is accepted — the
hashing layer only rejects lengths that are not multiples of 32. -/
theorem set_leaf_accepts_64_byte_data :
    (List.replicate 64 0 : Bytes).length = 64 ∧
    isOkE (set_leaf anyFns emptyCollection (2 ^ 20 - 1) (some (List.replicate 64 0)) none)
      = true :=
  ⟨rfl, rfl⟩

/-- C8 (amended): SetLeaf with data and no hash is rejected by the hashing
layer with InvalidArgument exactly when the data length is not a multiple of
32 bytes or some 32-byte chunk is not a valid field element: poseidon_hash
succeeds iff the length is a multiple of 32 and every chunk's value is below
the modulus, its every failure is InvalidArgument, a failure is returned by
set_leaf as is, and on success set_leaf proceeds past the hashing layer. -/
theorem set_leaf_data_length_spec :
    (∀ (fns : HashFns) (data : Bytes),
        isOkE (poseidon_hash fns data) = true ↔
          (data.length % 32 = 0 ∧ ∀ ch ∈ chunks32 data, le_bytes_to_nat ch < bn254p)) ∧
    (∀ (fns : HashFns) (data : Bytes), isOkE (poseidon_hash fns data) = false →
        poseidon_hash fns data = .error .invalidArgument) ∧
    (∀ (fns : HashFns) (c : Collection) (index : Nat) (data : Bytes) (e : Err),
        poseidon_hash fns data = .error e →
        set_leaf fns c index (some data) none = .error e) ∧
    (∀ (fns : HashFns) (c : Collection) (index : Nat) (data : Bytes) (h : Hash),
        poseidon_hash fns data = .ok h →
        set_leaf fns c index (some data) none = set_leaf_tail fns c index data h true) := by
  refine ⟨?_, ?_, ?_, ?_⟩
  · intro fns data
    unfold poseidon_hash
    by_cases hlen : data.length % 32 = 0
    · rw [if_pos hlen]
      cases hr : frs_of_chunks (chunks32 data) with
      | error e =>
        have hiff := frs_of_chunks_ok_iff (chunks32 data)
        rw [hr] at hiff
        simp only [isOkE] at hiff ⊢
        constructor
        · intro hfalse; exact absurd hfalse (by simp)
        · intro hall
          exfalso
          have hcontra := hiff.mpr hall.2
          simp at hcontra
      | ok fs =>
        have hiff := frs_of_chunks_ok_iff (chunks32 data)
        rw [hr] at hiff
        simp only [isOkE] at hiff ⊢
        constructor
        · intro _; exact ⟨hlen, hiff.mp trivial⟩
        · intro _; trivial
    · rw [if_neg hlen]
      simp only [isOkE]
      constructor
      · intro hfalse; exact absurd hfalse (by simp)
      · intro hall; exact absurd hall.1 hlen
  · intro fns data hfail
    unfold poseidon_hash at hfail ⊢
    by_cases hlen : data.length % 32 = 0
    · rw [if_pos hlen] at hfail ⊢
      cases hr : frs_of_chunks (chunks32 data) with
      | error e =>
        dsimp only
        rw [frs_of_chunks_err (chunks32 data) e hr]
      | ok fs =>
        rw [hr] at hfail
        simp [isOkE] at hfail
    · rw [if_neg hlen]
  · intro fns c index data e h
    unfold set_leaf
    dsimp only
    rw [h]
  · intro fns c index data h hok
    unfold set_leaf
    dsimp only
    rw [hok]

/-- C8 witness: 31-byte data is rejected with InvalidArgument, 64-byte data
of two invalid chunks is rejected with InvalidArgument, 64-byte data of two
valid chunks is accepted by the hashing layer, and with accepted 32-byte
data set_leaf proceeds past that layer. -/
theorem set_leaf_data_length_spec_witness :
    set_leaf anyFns emptyCollection (2 ^ 20 - 1) (some (List.replicate 31 0)) none
      = .error .invalidArgument ∧
    set_leaf anyFns emptyCollection (2 ^ 20 - 1) (some (ff32 ++ ff32)) none
      = .error .invalidArgument ∧
    isOkE (poseidon_hash anyFns (List.replicate 64 0)) = true ∧
    set_leaf anyFns emptyCollection (2 ^ 20 - 1) (some d42) none
      = set_leaf_tail anyFns emptyCollection (2 ^ 20 - 1) d42 zero32 true := by
  have h31 : poseidon_hash anyFns (List.replicate 31 0) = .error .invalidArgument := rfl
  have hff : poseidon_hash anyFns (ff32 ++ ff32) = .error .invalidArgument := by
    have hfail : isOkE (poseidon_hash anyFns (ff32 ++ ff32)) = false := by decide
    exact set_leaf_data_length_spec.2.1 anyFns (ff32 ++ ff32) hfail
  have h42 : poseidon_hash anyFns d42 = .ok zero32 := rfl
  refine ⟨?_, ?_, ?_, ?_⟩
  · exact set_leaf_data_length_spec.2.2.1 anyFns emptyCollection (2 ^ 20 - 1)
      (List.replicate 31 0) .invalidArgument h31
  · exact set_leaf_data_length_spec.2.2.1 anyFns emptyCollection (2 ^ 20 - 1)
      (ff32 ++ ff32) .invalidArgument hff
  · exact (set_leaf_data_length_spec.1 anyFns (List.replicate 64 0)).mpr
      ⟨rfl, by decide⟩
  · exact set_leaf_data_length_spec.2.2.2 anyFns emptyCollection (2 ^ 20 - 1) d42 zero32 h42

/-- C9: the commit retry loop never returns on a successful underlying
commit — after `result?` evaluates to unit the loop body ends without a
break, so the commit is retried forever; a failure without the retryable
labels is returned at once. -/
theorem commit_loop_spec :
    (∀ (fuel i : Nat), commit_loop (fun _ => CommitResult.success) fuel i = none) ∧
    (∀ (outcomes : Nat → CommitResult) (fuel i : Nat),
        outcomes i = CommitResult.errPlain →
        commit_loop outcomes (fuel + 1) i = some (.error .mongoErr)) := by
  constructor
  · intro fuel
    induction fuel with
    | zero => intro i; rfl
    | succ n ih => intro i; exact ih (i + 1)
  · intro outcomes fuel i h
    unfold commit_loop
    rw [h]

/-- C9 witness: an always-successful underlying commit leaves the loop
running after 1000 iterations, while a plain error returns at once. -/
theorem commit_loop_spec_witness :
    commit_loop (fun _ => CommitResult.success) 1000 0 = none ∧
    commit_loop (fun _ => CommitResult.errPlain) 1 0 = some (.error .mongoErr) :=
  ⟨commit_loop_spec.1 1000 0, commit_loop_spec.2 (fun _ => CommitResult.errPlain) 0 0 rfl⟩

/-- C10: with no test override and no explicit contract_id field, contract-id
resolution never rejects: any failure of the request-context path (absent
header, bad string, bad base64, wrong length) falls back to the all-zero
default ContractId. -/
theorem get_contract_id_never_rejects :
    ∀ (b64 : String → Option Bytes) (meta : Option (Option String)),
      isOkE (get_contract_id none b64 meta none) = true ∧
      (∀ e : Err, get_contract_id_from_request_context b64 meta = .error e →
          get_contract_id none b64 meta none = .ok default_contract_id) := by
  intro b64 meta
  constructor
  · unfold get_contract_id
    dsimp only
    cases h : get_contract_id_from_request_context b64 meta with
    | ok v => rfl
    | error e => rfl
  · intro e he
    unfold get_contract_id
    dsimp only
    rw [he]

/-- C10 witness: a failing base64 decoder on a present header still resolves
to the default contract id. -/
theorem get_contract_id_never_rejects_witness :
    get_contract_id none (fun _ => none) (some (some "x")) none = .ok default_contract_id :=
  (get_contract_id_never_rejects (fun _ => none) (some (some "x"))).2 .unauthenticated rfl

end ZkcState
